import Mathlib

/-
Verification development for the kalshi-weather-bot trading engine.

Shallow embedding conventions:
* Python floats are modelled as rationals (ℚ); integer cent prices as ℤ.
* Stateful methods become pure functions threading an explicit state record.
* External effects (the exchange, the network, the random jitter source) are
  modelled as explicit inputs: the exchange response is an `Option Order`
  argument, the network is a stream `ℕ → AttemptOutcome` of per-attempt
  outcomes, jitter is a stream `ℕ → ℚ`.
* The standard normal CDF used by the forecast model is transcendental, so it
  is passed as an abstract function parameter `cdf : ℚ → ℚ → ℚ → ℚ`
  (arguments: x, mean, std). The selector safety bounds are proved for every
  instantiation of this parameter. Where a concrete selector run is needed,
  the run is first shown (`demo_selector_window`) to depend only on the CDF
  value at a single point lying anywhere in a rational window that provably
  contains the true normal CDF value there, and the window lemma is then
  instantiated with a monotone rational stand-in taking a value inside that
  window.
-/

namespace KWB

/-! ## models/order.py -/

inductive OrderSide where
  | buy
  | sell
deriving DecidableEq

inductive OrderType where
  | market
  | limit
deriving DecidableEq

inductive OrderStatus where
  | pending
  | open_
  | filled
  | partially_filled
  | cancelled
  | rejected
deriving DecidableEq

/-- A trading order (timestamps and the optional yes/no price fields are
omitted: no embedded code reads them). -/
structure Order where
  id : String
  ticker : String
  side : OrderSide
  order_type : OrderType
  price : ℚ
  size : ℤ
  filled : ℤ := 0
  status : OrderStatus := .pending
deriving DecidableEq

/-! ## strategy/base.py — `Strategy.place_order`

The mutable fields touched by `place_order` are `_daily_risk` and
`_orders_placed`; they form the explicit state. `max_daily_risk` and
`dry_run` are per-instance constants. The exchange call
`kalshi.place_order` is modelled by an `Option Order` input: `some o` means
the call returned order `o`, `none` means it raised (so the method aborts
with no state change). -/

structure StrategyState where
  dailyRisk : ℚ
  ordersPlaced : List Order
deriving DecidableEq

inductive PlaceOutcome where
  | blocked
  | dryRunNoop
  | placed (o : Order)
  | exchangeFailed
deriving DecidableEq

def placeOrder (maxDailyRisk : ℚ) (dryRun : Bool) (exchange : Option Order)
    (s : StrategyState) (contracts price : ℤ) : PlaceOutcome × StrategyState :=
  let cost : ℚ := ((contracts * price : ℤ) : ℚ) / 100
  if maxDailyRisk < s.dailyRisk + cost then (.blocked, s)
  else if dryRun then (.dryRunNoop, s)
  else
    match exchange with
    | none => (.exchangeFailed, s)
    | some o => (.placed o, ⟨s.dailyRisk + cost, s.ordersPlaced ++ [o]⟩)

/-- One `place_order` request: contract count, price, and the exchange
response that call would receive if forwarded. -/
abbrev OrderRequest := ℤ × ℤ × Option Order

def runOrders (maxDailyRisk : ℚ) (dryRun : Bool) (s : StrategyState) :
    List OrderRequest → StrategyState
  | [] => s
  | r :: rest =>
      runOrders maxDailyRisk dryRun
        (placeOrder maxDailyRisk dryRun r.2.2 s r.1 r.2.1).2 rest

/-! ## clients/base.py — `BaseClient._request`

Each attempt either yields an HTTP response with some status code, or raises
a network/timeout error. A 429 response is converted to `RateLimitError`
(transient); any other response is returned as-is. The loop runs attempts
`0 .. max_retries`; before retry `n` it sleeps
`retry_delay * retry_backoff ^ n + jitter n`. -/

inductive AttemptOutcome where
  | resp (status : ℕ)
  | netErr
  | timeoutErr
deriving DecidableEq

inductive ReqError where
  | network
  | rateLimit
deriving DecidableEq

/-- The body of one loop iteration of `_request` (lines 89-110): classify the
attempt outcome as a returned response or a typed transient error. -/
def attemptResult : AttemptOutcome → Except ReqError ℕ
  | .resp status => if status = 429 then .error .rateLimit else .ok status
  | .netErr => .error .network
  | .timeoutErr => .error .network

deriving instance DecidableEq for Except

structure ReqTrace where
  result : Except ReqError ℕ
  attempts : ℕ
  sleeps : List ℚ
deriving DecidableEq

def requestAux (retryDelay retryBackoff : ℚ) (outcomes : ℕ → AttemptOutcome)
    (jitter : ℕ → ℚ) (attempt : ℕ) : ℕ → ReqTrace
  | 0 =>
      match attemptResult (outcomes attempt) with
      | .ok status => ⟨.ok status, attempt + 1, []⟩
      | .error e => ⟨.error e, attempt + 1, []⟩
  | remaining + 1 =>
      match attemptResult (outcomes attempt) with
      | .ok status => ⟨.ok status, attempt + 1, []⟩
      | .error _ =>
          let d := retryDelay * retryBackoff ^ attempt + jitter attempt
          let t := requestAux retryDelay retryBackoff outcomes jitter
            (attempt + 1) remaining
          ⟨t.result, t.attempts, d :: t.sleeps⟩

def requestWithRetry (maxRetries : ℕ) (retryDelay retryBackoff : ℚ)
    (outcomes : ℕ → AttemptOutcome) (jitter : ℕ → ℚ) : ReqTrace :=
  requestAux retryDelay retryBackoff outcomes jitter 0 maxRetries

/-! ## models/forecast.py — `Edge.kelly_fraction` -/

def kellyFraction (marketPrice modelProb : ℚ) : ℚ :=
  if 100 ≤ marketPrice ∨ marketPrice ≤ 0 then 0
  else
    let b := (100 - marketPrice) / marketPrice
    let p := modelProb
    let q := 1 - p
    max 0 ((b * p - q) / b)

/-! ## strategy/btc_bot.py — `BTCBotStrategy._calculate_confidence` -/

def calcConfidence (priceChangePct minutesLeft : ℚ) (hasMomentum : Bool) : ℚ :=
  let pctAbs := |priceChangePct|
  let priceConfidence := min (1/2 + pctAbs * (2/5)) (19/20)
  let timeFactor := max 0 (1 - minutesLeft / 15)
  let confidence := priceConfidence * (1/2 + 1/2 * timeFactor)
  let confidence := if hasMomentum then confidence + 3/20 else confidence
  let confidence := if 3/20 ≤ pctAbs then confidence + 1/10 else confidence
  min confidence (99/100)

/-! ## strategy/btc_bot.py — `_place_bet` and `_execute_best_up_trade`

`_place_bet` routes each trade type to a `Strategy.place_order` call; what
matters for the claims is the `(side, price)` pair it forwards. `sell_no`
becomes a BUY of YES at `100 - price`, `buy_no` becomes a SELL of YES at
`100 - price`. An unknown trade type forwards nothing. -/

def placeBetArgs (tradeType : String) (price : ℤ) : Option (OrderSide × ℤ) :=
  if tradeType = "buy_yes" then some (.buy, price)
  else if tradeType = "sell_yes" then some (.sell, price)
  else if tradeType = "buy_no" then some (.sell, 100 - price)
  else if tradeType = "sell_no" then some (.buy, 100 - price)
  else none

/-- `BTCBotStrategy._execute_best_up_trade` (lines 190-225): returns whether
a trade was executed together with the `(side, price)` order arguments
forwarded through `_place_bet`. -/
def executeBestUpTrade (maxPrice yesAsk noBid : ℤ) :
    Bool × Option (OrderSide × ℤ) :=
  if yesAsk ≤ maxPrice then (true, placeBetArgs "buy_yes" yesAsk)
  else if 0 < noBid ∧ 100 - noBid ≤ maxPrice then
    (true, placeBetArgs "sell_no" noBid)
  else (false, none)

/-! ## strategy/btc_hedged.py — `_calculate_entry_price` -/

def calculateEntryPrice (useLimitOrders : Bool) (isUp : Bool)
    (yesBid yesAsk : ℤ) : ℤ :=
  if !useLimitOrders then
    if isUp then yesAsk else yesBid
  else
    let midPrice := Int.fdiv (yesBid + yesAsk) 2
    let spread := yesAsk - yesBid
    if isUp then
      if spread ≤ 2 then yesAsk else min (midPrice + 1) yesAsk
    else
      if spread ≤ 2 then yesBid else max (midPrice - 1) yesBid

/-! ## strategy/btc_hedged.py — `WindowPosition` and `_record_settlement` -/

structure WindowPosition where
  ticker : String
  entry_side : String
  entry_price : ℤ
  entry_contracts : ℤ
  entry_btc_price : ℚ
  entry_change_pct : ℚ := 0
  hedged : Bool := false
  hedge_price : ℤ := 0
  hedge_contracts : ℤ := 0
  settled : Bool := false
  won : Bool := false
  pnl_cents : ℤ := 0
deriving DecidableEq

/-- The state of `BTCHedgedStrategy` touched by `_record_settlement`:
the per-ticker position map and the aggregate counters. -/
structure HedgedState where
  positions : List (String × WindowPosition)
  windowsWon : ℤ
  totalPnlCents : ℤ
deriving DecidableEq

/-- Lines 361-385 of `_record_settlement`: mark the position settled and fill
in `won` and `pnl_cents` from the final direction. -/
def settlePosition (p : WindowPosition) (btcWentUp : Bool) : WindowPosition :=
  if p.entry_side = "long" then
    let pnl : ℤ :=
      if p.hedged then -(p.entry_price - p.hedge_price)
      else if btcWentUp then 100 - p.entry_price
      else -p.entry_price
    { p with settled := true, won := btcWentUp, pnl_cents := pnl }
  else
    let pnl : ℤ :=
      if p.hedged then -(p.hedge_price - p.entry_price)
      else if !btcWentUp then p.entry_price
      else -(100 - p.entry_price)
    { p with settled := true, won := !btcWentUp, pnl_cents := pnl }

/-- `BTCHedgedStrategy._record_settlement` (lines 349-394). The Python dict
`_positions` is modelled as an association list with unique keys; the in-place
mutation of the looked-up position becomes a map over the entry with the
matching ticker. -/
def recordSettlement (s : HedgedState) (ticker : String) (btcWentUp : Bool) :
    HedgedState :=
  match s.positions.find? (fun kv => decide (kv.1 = ticker)) with
  | none => s
  | some kv =>
      if kv.2.settled then s
      else
        let p := settlePosition kv.2 btcWentUp
        { positions :=
            s.positions.map (fun kv => if kv.1 = ticker then (kv.1, p) else kv),
          totalPnlCents := s.totalPnlCents + p.pnl_cents * p.entry_contracts,
          windowsWon := s.windowsWon + (if p.won then 1 else 0) }

/-! ## models/market.py — `Bucket` and `Market`

Only the fields read by the spread selector are carried
(`bucket_type` and `volume` are never consulted on this path). -/

structure Bucket where
  ticker : String
  temp_min : Option ℤ
  temp_max : Option ℤ
  yes_bid : ℚ
  yes_ask : ℚ
deriving DecidableEq

structure Market where
  buckets : List Bucket
deriving DecidableEq

/-- models/forecast.py `Forecast`: the fields the spread selector reads. -/
structure Forecast where
  high_temp : ℚ
  high_temp_std : ℚ
deriving DecidableEq

/-! ## models/forecast.py — `ProbabilityDistribution`

The Python code keys the distribution dict by formatted strings
(`"lo-hi"`, `"<hi"`, `">lo"`, and the degenerate `"<None"` when both bounds
are absent). Since that formatting is injective on the shapes that occur, the
keys are modelled by an inductive type. -/

inductive BKey where
  | range (lo hi : ℤ)
  | lowTail (hi : ℤ)
  | highTail (lo : ℤ)
  | lowTailNone
deriving DecidableEq

/-- Python dict insertion: overwrite the value in place if the key is
present, else append. -/
def dictInsert (l : List (BKey × ℚ)) (k : BKey) (v : ℚ) : List (BKey × ℚ) :=
  if l.any (fun kv => decide (kv.1 = k)) then
    l.map (fun kv => if kv.1 = k then (k, v) else kv)
  else l ++ [(k, v)]

/-- `ProbabilityDistribution.from_normal` (lines 53-90): one probability per
bucket range, floored at 0.001. The `(none, none)` case never occurs in the
range lists built by `calculate_bucket_edges` (such buckets are skipped),
so it inserts nothing. -/
def fromNormalStep (cdf : ℚ → ℚ → ℚ → ℚ) (mean std : ℚ)
    (probs : List (BKey × ℚ)) : Option ℤ × Option ℤ → List (BKey × ℚ)
  | (none, some hi) =>
      dictInsert probs (.lowTail hi) (max (1/1000) (cdf hi mean std))
  | (some lo, none) =>
      dictInsert probs (.highTail lo) (max (1/1000) (1 - cdf lo mean std))
  | (some lo, some hi) =>
      dictInsert probs (.range lo hi)
        (max (1/1000) (cdf ((hi : ℚ) + 1/2) mean std - cdf ((lo : ℚ) - 1/2) mean std))
  | (none, none) => probs

def fromNormal (cdf : ℚ → ℚ → ℚ → ℚ) (mean std : ℚ)
    (ranges : List (Option ℤ × Option ℤ)) : List (BKey × ℚ) :=
  ranges.foldl (fromNormalStep cdf mean std) []

/-- `ProbabilityDistribution.__post_init__`: normalize in place when the
probabilities do not sum to within 0.01 of 1. -/
def mkProbDist (l : List (BKey × ℚ)) : List (BKey × ℚ) :=
  let total := (l.map Prod.snd).sum
  if 1/100 < |total - 1| then l.map (fun kv => (kv.1, kv.2 / total)) else l

/-- `ProbabilityDistribution.get` with default 0. -/
def distGet (d : List (BKey × ℚ)) (k : BKey) : ℚ :=
  match d.find? (fun kv => decide (kv.1 = k)) with
  | some kv => kv.2
  | none => 0

/-! ## strategy/spread_selector.py -/

def MIN_EDGE : ℚ := 1/20

/-- config.py TradingConfig constants used by the selector. -/
def MIN_BUCKET_PRICE : ℚ := 10

def MAX_BUCKET_PRICE : ℚ := 60

def MAX_BUCKETS : ℕ := 2

def MAX_TOTAL_COST : ℚ := 95

structure Edge where
  bucket_ticker : String
  bucket_range : BKey
  model_prob : ℚ
  market_prob : ℚ
  edge : ℚ
  expected_value : ℚ
  market_price : ℚ
deriving DecidableEq

/-- The bucket-key construction of `calculate_bucket_edges` (lines 57-62):
its branch order sends a bucket with both bounds absent to the `"<None"`
key. -/
def bucketKey (b : Bucket) : BKey :=
  match b.temp_min, b.temp_max with
  | some lo, some hi => .range lo hi
  | none, some hi => .lowTail hi
  | none, none => .lowTailNone
  | some lo, none => .highTail lo

/-- `bucket_ranges` construction (lines 42-49): buckets with both bounds
absent are skipped. -/
def bucketRanges : List Bucket → List (Option ℤ × Option ℤ)
  | [] => []
  | b :: rest =>
      match b.temp_min, b.temp_max with
      | some lo, some hi => (some lo, some hi) :: bucketRanges rest
      | none, some hi => (none, some hi) :: bucketRanges rest
      | some lo, none => (some lo, none) :: bucketRanges rest
      | none, none => bucketRanges rest

/-- Python `bucket.yes_ask or bucket.yes_bid`: ask unless it is falsy (0). -/
def bucketPrice (b : Bucket) : ℚ :=
  if b.yes_ask ≠ 0 then b.yes_ask else b.yes_bid

/-- Stable insertion for a descending sort on `Edge.edge`, matching Python
`list.sort(key=..., reverse=True)` (stable). -/
def insertEdgeDesc (e : Edge) : List Edge → List Edge
  | [] => [e]
  | x :: xs => if x.edge ≤ e.edge then e :: x :: xs else x :: insertEdgeDesc e xs

def sortEdgesDesc (l : List Edge) : List Edge :=
  l.foldr insertEdgeDesc []

/-- `calculate_bucket_edges` (lines 23-89), with the normal CDF abstracted as
a function parameter. -/
def calculateBucketEdges (cdf : ℚ → ℚ → ℚ → ℚ) (market : Market)
    (forecast : Forecast) : List Edge :=
  let mean := forecast.high_temp
  let std := forecast.high_temp_std
  let forecastDist := mkProbDist (fromNormal cdf mean std (bucketRanges market.buckets))
  let edges := market.buckets.map (fun b =>
    let key := bucketKey b
    let modelProb := distGet forecastDist key
    let marketProb := if b.yes_ask ≠ 0 then b.yes_ask / 100 else b.yes_bid / 100
    let price := bucketPrice b
    let ev := (100 - price) * modelProb - price * (1 - modelProb)
    { bucket_ticker := b.ticker, bucket_range := key, model_prob := modelProb,
      market_prob := marketProb, edge := modelProb - marketProb,
      expected_value := ev, market_price := price })
  sortEdgesDesc edges

/-- The dict comprehension `{b.ticker: b for b in market.buckets}` followed by
`.get`: on duplicate tickers the last bucket wins. -/
def tickerToBucket (bs : List Bucket) (t : String) : Option Bucket :=
  bs.reverse.find? (fun b => decide (b.ticker = t))

/-! ## models/spread.py — `SpreadSelection` -/

structure SpreadSelection where
  buckets : List Bucket
  total_cost : ℚ
deriving DecidableEq

def SpreadSelection.is_valid (s : SpreadSelection) : Bool :=
  decide (s.total_cost < 95) && decide (0 < s.buckets.length)

/-! `select_spread_with_edge` (lines 158-214). The Python `for` loop with
`continue`/`break` is embedded as a fold whose state carries a `stopped`
flag; once `stopped` is set (by the bucket-count `break`), remaining edges
are ignored. -/

structure SelState where
  selected : List Bucket
  totalCost : ℚ
  stopped : Bool
deriving DecidableEq

def selStep (market : Market) (minEdge : ℚ) (st : SelState) (e : Edge) :
    SelState :=
  if st.stopped then st
  else if e.edge < minEdge then st
  else
    match tickerToBucket market.buckets e.bucket_ticker with
    | none => st
    | some b =>
        let price := bucketPrice b
        if MAX_BUCKET_PRICE < price then st
        else if MAX_TOTAL_COST < st.totalCost + price then st
        else if MAX_BUCKETS ≤ st.selected.length then { st with stopped := true }
        else ⟨st.selected ++ [b], st.totalCost + price, st.stopped⟩

def selectSpreadWithEdge (cdf : ℚ → ℚ → ℚ → ℚ) (market : Market)
    (forecast : Forecast) (minEdge : ℚ) :
    Option SpreadSelection × List Edge :=
  let edges := calculateBucketEdges cdf market forecast
  let st := edges.foldl (selStep market minEdge) ⟨[], 0, false⟩
  if st.selected.isEmpty then (none, edges)
  else
    let spread : SpreadSelection := ⟨st.selected, st.totalCost⟩
    if spread.is_valid then (some spread, edges) else (none, edges)

/-- Modelled from the spec sentence behind C2 ("stop once any constraint
would be violated or the bucket limit is reached"): identical to the
embedded loop except that a bucket violating the edge, price-ceiling, or
cost-ceiling constraint terminates the scan instead of being skipped. -/
def selectStopGo (market : Market) (minEdge : ℚ) :
    List Edge → List Bucket → ℚ → List Bucket × ℚ
  | [], sel, cost => (sel, cost)
  | e :: rest, sel, cost =>
      if e.edge < minEdge then (sel, cost)
      else
        match tickerToBucket market.buckets e.bucket_ticker with
        | none => selectStopGo market minEdge rest sel cost
        | some b =>
            let price := bucketPrice b
            if MAX_BUCKET_PRICE < price then (sel, cost)
            else if MAX_TOTAL_COST < cost + price then (sel, cost)
            else if MAX_BUCKETS ≤ sel.length then (sel, cost)
            else selectStopGo market minEdge rest (sel ++ [b]) (cost + price)

def selectSpreadStopAtViolation (cdf : ℚ → ℚ → ℚ → ℚ) (market : Market)
    (forecast : Forecast) (minEdge : ℚ) :
    Option SpreadSelection × List Edge :=
  let edges := calculateBucketEdges cdf market forecast
  let r := selectStopGo market minEdge edges [] 0
  if r.1.isEmpty then (none, edges)
  else
    let spread : SpreadSelection := ⟨r.1, r.2⟩
    if spread.is_valid then (some spread, edges) else (none, edges)

/-- The amended description of the scan: a bucket violating the edge,
price, or cost constraint is skipped and the scan continues; only the
bucket-count limit terminates the scan early. -/
def selectSkipGo (market : Market) (minEdge : ℚ) :
    List Edge → List Bucket → ℚ → List Bucket × ℚ
  | [], sel, cost => (sel, cost)
  | e :: rest, sel, cost =>
      if e.edge < minEdge then selectSkipGo market minEdge rest sel cost
      else
        match tickerToBucket market.buckets e.bucket_ticker with
        | none => selectSkipGo market minEdge rest sel cost
        | some b =>
            let price := bucketPrice b
            if MAX_BUCKET_PRICE < price then selectSkipGo market minEdge rest sel cost
            else if MAX_TOTAL_COST < cost + price then
              selectSkipGo market minEdge rest sel cost
            else if MAX_BUCKETS ≤ sel.length then (sel, cost)
            else selectSkipGo market minEdge rest (sel ++ [b]) (cost + price)

def selectSpreadSkipViolation (cdf : ℚ → ℚ → ℚ → ℚ) (market : Market)
    (forecast : Forecast) (minEdge : ℚ) :
    Option SpreadSelection × List Edge :=
  let edges := calculateBucketEdges cdf market forecast
  let r := selectSkipGo market minEdge edges [] 0
  if r.1.isEmpty then (none, edges)
  else
    let spread : SpreadSelection := ⟨r.1, r.2⟩
    if spread.is_valid then (some spread, edges) else (none, edges)

/-! ## Concrete demonstration inputs

A two-bucket market that exercises the selector on a run where the
top-ranked bucket violates the price ceiling: a low tail `< 16` quoted at
ask 62 and a high tail `> 16` quoted at ask 25, against a forecast with
mean 15 and std 2. The two tails partition the line at 16, so the run
evaluates the normal CDF at the single point `x = 16`, i.e. `z = 1/2`,
where `Φ(1/2) = 0.6914624...`; the low tail gets probability `Φ(1/2)` and
the high tail `1 − Φ(1/2)`, summing to exactly 1 (no renormalization).
Every branch decision of the run is determined by the CDF value at that one
point lying in the interval `[137/200, 7/10]`, which contains `Φ(1/2)`
with margin ≥ 1/200 on each side — see `demo_selector_window` — so the
embedded run takes the same branch path as the source for every faithful
rendering of `_normal_cdf`. -/

/-- A monotone rational stand-in for `_normal_cdf` (a step CDF in the
standardized variable `z = (x − mean)/std`). Its value at the only point
the demonstration input evaluates, `z = 1/2`, is `1383/2000 = 0.6915`,
which agrees with `Φ(1/2) = 0.6914624...` to within `5·10⁻⁵`, far inside
the `[137/200, 7/10]` window that `demo_selector_window` shows is all the
selector run depends on. -/
def demoNormalCdf (x mean std : ℚ) : ℚ :=
  let z := (x - mean) / std
  if z < -3 then 1/1000
  else if z < -1 then 4/25
  else if z < -1/2 then 31/100
  else if z < 0 then 2/5
  else if z < 1/2 then 1/2
  else if z < 1 then 1383/2000
  else if z < 3 then 841/1000
  else 999/1000

def demoBucketA : Bucket := ⟨"A", none, some 16, 60, 62⟩

def demoBucketB : Bucket := ⟨"B", some 16, none, 20, 25⟩

def demoMarket : Market := ⟨[demoBucketA, demoBucketB]⟩

def demoForecast : Forecast := ⟨15, 2⟩

/-- The edge list the selector computes on the demonstration market. -/
def demoEdges : List Edge :=
  calculateBucketEdges demoNormalCdf demoMarket demoForecast

/-- A concrete exchange response used to exercise `placeOrder`. -/
def demoOrder : Order := ⟨"ord-1", "KXHIGHNY", .buy, .limit, 50, 10, 0, .pending⟩

/-! # Theorems -/

/-! ## Risk ledger (strategy/base.py) -/

lemma placeOrder_dailyRisk_le (maxRisk : ℚ) (dr : Bool) (ex : Option Order)
    (s : StrategyState) (c p : ℤ) (h : s.dailyRisk ≤ maxRisk) :
    ((placeOrder maxRisk dr ex s c p).2).dailyRisk ≤ maxRisk := by
  simp only [placeOrder]
  split_ifs with h1 h2
  · exact h
  · exact h
  · cases ex with
    | none => exact h
    | some o => simpa using not_lt.mp h1

lemma runOrders_dailyRisk_le (maxRisk : ℚ) (dr : Bool) :
    ∀ (reqs : List OrderRequest) (s : StrategyState),
      s.dailyRisk ≤ maxRisk → (runOrders maxRisk dr s reqs).dailyRisk ≤ maxRisk := by
  intro reqs
  induction reqs with
  | nil => intro s h; exact h
  | cons r rest ih =>
      intro s h
      exact ih _ (placeOrder_dailyRisk_le maxRisk dr r.2.2 s r.1 r.2.1 h)

/-- C1: starting from a zero risk ledger, no sequence of `place_order` calls
can push `_daily_risk` above `max_daily_risk`; a call whose cost
`contracts * price / 100` would breach the ceiling returns None leaving the
state untouched; and every call either leaves the state untouched or
forwards the order successfully and increments the ledger by exactly that
cost while recording the order. -/
theorem place_order_risk_ledger_bounded (maxRisk : ℚ) (dryRun : Bool)
    (h : 0 ≤ maxRisk) :
    (∀ reqs : List OrderRequest,
      (runOrders maxRisk dryRun ⟨0, []⟩ reqs).dailyRisk ≤ maxRisk) ∧
    (∀ (s : StrategyState) (ex : Option Order) (c p : ℤ),
      maxRisk < s.dailyRisk + ((c * p : ℤ) : ℚ) / 100 →
      placeOrder maxRisk dryRun ex s c p = (.blocked, s)) ∧
    (∀ (s : StrategyState) (ex : Option Order) (c p : ℤ),
      (placeOrder maxRisk dryRun ex s c p).2 = s ∨
      ∃ o : Order, ex = some o ∧
        placeOrder maxRisk dryRun ex s c p =
          (.placed o, ⟨s.dailyRisk + ((c * p : ℤ) : ℚ) / 100,
            s.ordersPlaced ++ [o]⟩)) := by
  refine ⟨fun reqs => runOrders_dailyRisk_le maxRisk dryRun reqs _ h, ?_, ?_⟩
  · intro s ex c p hover
    simp only [placeOrder]
    rw [if_pos hover]
  · intro s ex c p
    simp only [placeOrder]
    split_ifs
    · exact Or.inl rfl
    · exact Or.inl rfl
    · cases ex with
      | none => exact Or.inl rfl
      | some o => exact Or.inr ⟨o, rfl, rfl⟩

theorem place_order_risk_ledger_bounded_witness :
    (runOrders 100 false ⟨0, []⟩ [(10, 50, some demoOrder)]).dailyRisk ≤ 100 :=
  (place_order_risk_ledger_bounded 100 false (by norm_num)).1
    [(10, 50, some demoOrder)]

/-- C10: in dry-run mode, a `place_order` call that passes the risk check
returns None with the exchange never consulted (the result is independent of
the exchange response) and the whole state — risk ledger and order list —
unchanged; the same frame condition holds whenever the risk check rejects
the call, in any mode. -/
theorem place_order_dry_run_frame (maxRisk : ℚ) (s : StrategyState)
    (ex : Option Order) (c p : ℤ) :
    (¬ maxRisk < s.dailyRisk + ((c * p : ℤ) : ℚ) / 100 →
      (∀ ex' : Option Order,
        placeOrder maxRisk true ex s c p = placeOrder maxRisk true ex' s c p) ∧
      placeOrder maxRisk true ex s c p = (.dryRunNoop, s)) ∧
    (∀ dr : Bool, maxRisk < s.dailyRisk + ((c * p : ℤ) : ℚ) / 100 →
      placeOrder maxRisk dr ex s c p = (.blocked, s)) := by
  constructor
  · intro hok
    have hcall : ∀ ex' : Option Order,
        placeOrder maxRisk true ex' s c p = (.dryRunNoop, s) := by
      intro ex'
      simp only [placeOrder]
      rw [if_neg hok, if_pos trivial]
    exact ⟨fun ex' => (hcall ex).trans (hcall ex').symm, hcall ex⟩
  · intro dr hover
    unfold placeOrder
    rw [if_pos hover]

theorem place_order_dry_run_frame_witness :
    placeOrder 100 true (some demoOrder) ⟨0, []⟩ 10 50 = (.dryRunNoop, ⟨0, []⟩) :=
  ((place_order_dry_run_frame 100 ⟨0, []⟩ (some demoOrder) 10 50).1
    (by norm_num)).2

/-! ## Kelly fraction (models/forecast.py) -/

/-- C4: for a market price strictly inside (0, 100) and a model probability
in (0, 1), the Kelly fraction is nonnegative and vanishes whenever
`p ≤ price / 100`; at or beyond either price boundary the fraction is 0. -/
theorem kelly_fraction_nonneg_and_zero (price p : ℚ) :
    (0 < price → price < 100 → 0 < p → p < 1 →
      0 ≤ kellyFraction price p ∧
      (p ≤ price / 100 → kellyFraction price p = 0)) ∧
    (price ≤ 0 ∨ 100 ≤ price → kellyFraction price p = 0) := by
  constructor
  · intro hp0 hp100 _ _
    have hcond : ¬ (100 ≤ price ∨ price ≤ 0) := by push_neg; exact ⟨hp100, hp0⟩
    have hb : (0 : ℚ) < (100 - price) / price := by
      apply div_pos (by linarith) hp0
    constructor
    · simp only [kellyFraction, if_neg hcond]
      exact le_max_left 0 _
    · intro hple
      have h100 : p * 100 ≤ price := (le_div_iff₀ (by norm_num)).mp hple
      have hnum : (100 - price) / price * p - (1 - p) ≤ 0 := by
        have : (100 - price) / price * p ≤ 1 - p := by
          rw [div_mul_eq_mul_div, div_le_iff₀ hp0]
          nlinarith
        linarith
      simp only [kellyFraction, if_neg hcond]
      exact max_eq_left (div_nonpos_of_nonpos_of_nonneg hnum (le_of_lt hb))
  · intro hbound
    have : (100 ≤ price ∨ price ≤ 0) := hbound.symm
    simp only [kellyFraction, if_pos this]

theorem kelly_fraction_nonneg_and_zero_witness :
    0 ≤ kellyFraction 50 (1/4) ∧ kellyFraction 50 (1/4) = 0 := by
  have h := (kelly_fraction_nonneg_and_zero 50 (1/4)).1
    (by norm_num) (by norm_num) (by norm_num) (by norm_num)
  exact ⟨h.1, h.2 (by norm_num)⟩

/-! ## Entry pricing (strategy/btc_hedged.py) -/

/-- C8: for a quote with `0 ≤ yes_bid ≤ yes_ask ≤ 100`, the computed entry
price is never worse than market: in limit mode a long entry is at most the
ask and a short entry is at least the bid; with a spread of at most 2 the
touch price is used; in market-taking mode the touch price is always used. -/
theorem entry_price_never_worse_than_market (yesBid yesAsk : ℤ)
    (h0 : 0 ≤ yesBid) (h1 : yesBid ≤ yesAsk) (h2 : yesAsk ≤ 100) :
    calculateEntryPrice true true yesBid yesAsk ≤ yesAsk ∧
    yesBid ≤ calculateEntryPrice true false yesBid yesAsk ∧
    (yesAsk - yesBid ≤ 2 →
      calculateEntryPrice true true yesBid yesAsk = yesAsk ∧
      calculateEntryPrice true false yesBid yesAsk = yesBid) ∧
    calculateEntryPrice false true yesBid yesAsk = yesAsk ∧
    calculateEntryPrice false false yesBid yesAsk = yesBid := by
  refine ⟨?_, ?_, ?_, rfl, rfl⟩
  · by_cases hs : yesAsk - yesBid ≤ 2 <;>
      simp [calculateEntryPrice, hs, min_le_right]
  · by_cases hs : yesAsk - yesBid ≤ 2 <;>
      simp [calculateEntryPrice, hs, le_max_right]
  · intro hs
    simp [calculateEntryPrice, hs]

theorem entry_price_never_worse_than_market_witness :
    calculateEntryPrice true true 40 50 ≤ 50 ∧
    40 ≤ calculateEntryPrice true false 40 50 :=
  ⟨(entry_price_never_worse_than_market 40 50 (by norm_num) (by norm_num)
      (by norm_num)).1,
   (entry_price_never_worse_than_market 40 50 (by norm_num) (by norm_num)
      (by norm_num)).2.1⟩

/-! ## Up-trade fallback (strategy/btc_bot.py) -/

/-- C9: with `yes_ask = 98`, `no_bid = 20` and `max_price = 95`, the up-trade
path does not buy YES at 98; it falls back to the sell-NO branch, which
forwards a BUY order for YES at `100 - no_bid = 80`, and reports the trade
as executed. -/
theorem up_trade_fallback_sell_no :
    executeBestUpTrade 95 98 20 = (true, some (OrderSide.buy, 80)) ∧
    (executeBestUpTrade 95 98 20).2 ≠ some (OrderSide.buy, 98) := by
  constructor <;> decide

/-! ## Settlement idempotence (strategy/btc_hedged.py) -/

lemma settlePosition_settled (p : WindowPosition) (d : Bool) :
    (settlePosition p d).settled = true := by
  unfold settlePosition
  split_ifs <;> rfl

lemma find?_map_update (l : List (String × WindowPosition)) (t : String)
    (p : WindowPosition) (kv : String × WindowPosition)
    (h : l.find? (fun x => decide (x.1 = t)) = some kv) :
    (l.map (fun q => if q.1 = t then (q.1, p) else q)).find?
      (fun x => decide (x.1 = t)) = some (t, p) := by
  induction l with
  | nil => simp at h
  | cons a l ih =>
      by_cases ha : a.1 = t
      · simp only [List.map_cons, if_pos ha]
        rw [List.find?_cons_of_pos _ (by simpa using ha), ha]
      · rw [List.find?_cons_of_neg _ (by simpa using ha)] at h
        simp only [List.map_cons, if_neg ha]
        rw [List.find?_cons_of_neg _ (by simpa using ha)]
        exact ih h

lemma recordSettlement_of_none (s : HedgedState) (t : String) (d : Bool)
    (hf : s.positions.find? (fun x => decide (x.1 = t)) = none) :
    recordSettlement s t d = s := by
  unfold recordSettlement
  rw [hf]

lemma recordSettlement_of_settled (s : HedgedState) (t : String) (d : Bool)
    (kv : String × WindowPosition)
    (hf : s.positions.find? (fun x => decide (x.1 = t)) = some kv)
    (hs : kv.2.settled = true) :
    recordSettlement s t d = s := by
  unfold recordSettlement
  rw [hf]
  exact if_pos hs

/-- C7: recording settlement is idempotent — after one `_record_settlement`
call, a second call on the same ticker (with any final direction) leaves the
position record (pnl_cents, won, settled) and the aggregate P&L and win
counters exactly as the first call left them. -/
theorem record_settlement_idempotent (s : HedgedState) (t : String)
    (d1 d2 : Bool) :
    recordSettlement (recordSettlement s t d1) t d2 = recordSettlement s t d1 := by
  rcases hf : s.positions.find? (fun x => decide (x.1 = t)) with _ | kv
  · rw [recordSettlement_of_none s t d1 hf, recordSettlement_of_none s t d2 hf]
  · by_cases hs : kv.2.settled
    · rw [recordSettlement_of_settled s t d1 kv hf hs,
        recordSettlement_of_settled s t d2 kv hf hs]
    · have hs' : kv.2.settled = false := by simpa using hs
      have h1 : recordSettlement s t d1 =
          ⟨s.positions.map
              (fun q => if q.1 = t then (q.1, settlePosition kv.2 d1) else q),
            s.windowsWon + (if (settlePosition kv.2 d1).won then 1 else 0),
            s.totalPnlCents +
              (settlePosition kv.2 d1).pnl_cents *
                (settlePosition kv.2 d1).entry_contracts⟩ := by
        unfold recordSettlement
        rw [hf]
        exact if_neg hs
      rw [h1]
      exact recordSettlement_of_settled _ t d2 (t, settlePosition kv.2 d1)
        (find?_map_update s.positions t (settlePosition kv.2 d1) kv hf)
        (settlePosition_settled kv.2 d1)

/-! ## Confidence score (strategy/btc_bot.py) -/

/-- C6: the confidence score is monotonically non-decreasing in the absolute
percent change (other inputs fixed), non-decreasing in the
momentum-confirmation flag, and never exceeds 0.99. -/
theorem confidence_monotone_bounded (p1 p2 m : ℚ) (mom : Bool) :
    (|p1| ≤ |p2| → calcConfidence p1 m mom ≤ calcConfidence p2 m mom) ∧
    calcConfidence p1 m false ≤ calcConfidence p1 m true ∧
    calcConfidence p1 m mom ≤ 99/100 := by
  have hK : (0 : ℚ) ≤ 1/2 + 1/2 * max 0 (1 - m / 15) := by
    nlinarith [le_max_left (0 : ℚ) (1 - m / 15)]
  refine ⟨?_, ?_, ?_⟩
  · intro h
    have hbase :
        min (1/2 + |p1| * (2/5)) (19/20) * (1/2 + 1/2 * max 0 (1 - m / 15)) ≤
        min (1/2 + |p2| * (2/5)) (19/20) * (1/2 + 1/2 * max 0 (1 - m / 15)) := by
      apply mul_le_mul_of_nonneg_right _ hK
      apply min_le_min _ le_rfl
      nlinarith
    simp only [calcConfidence]
    apply min_le_min _ le_rfl
    split_ifs <;> linarith
  · have hbase :
        min (1/2 + |p1| * (2/5)) (19/20) * (1/2 + 1/2 * max 0 (1 - m / 15)) ≤
        min (1/2 + |p1| * (2/5)) (19/20) * (1/2 + 1/2 * max 0 (1 - m / 15)) + 3/20 := by
      linarith
    simp only [calcConfidence]
    apply min_le_min _ le_rfl
    split_ifs <;> linarith
  · simp only [calcConfidence]
    exact min_le_right _ _

theorem confidence_monotone_bounded_witness :
    calcConfidence 1 5 true ≤ calcConfidence 2 5 true :=
  (confidence_monotone_bounded 1 2 5 true).1 (by norm_num)

/-! ## Retry policy (clients/base.py) -/

lemma requestAux_attempts_le (rd rb : ℚ) (o : ℕ → AttemptOutcome)
    (j : ℕ → ℚ) : ∀ (r a : ℕ), (requestAux rd rb o j a r).attempts ≤ a + r + 1 := by
  intro r
  induction r with
  | zero =>
      intro a
      unfold requestAux
      cases h : attemptResult (o a) <;> simp [h]
  | succ n ih =>
      intro a
      unfold requestAux
      cases h : attemptResult (o a) with
      | ok status => simp [h]
      | error e =>
          simp only [h]
          have := ih (a + 1)
          simpa using Nat.le_trans this (by omega)

lemma requestAux_all_errors (rd rb : ℚ) (o : ℕ → AttemptOutcome) (j : ℕ → ℚ) :
    ∀ (r a : ℕ),
      (∀ k, a ≤ k → k ≤ a + r → ∃ e, attemptResult (o k) = .error e) →
      requestAux rd rb o j a r =
        ⟨attemptResult (o (a + r)), a + r + 1,
          (List.range' a r).map (fun n => rd * rb ^ n + j n)⟩ := by
  intro r
  induction r with
  | zero =>
      intro a h
      obtain ⟨e, he⟩ := h a le_rfl (by omega)
      unfold requestAux
      rw [he]
      simp [he]
  | succ n ih =>
      intro a h
      obtain ⟨e, he⟩ := h a le_rfl (by omega)
      have ht := ih (a + 1) (fun k hk1 hk2 => h k (by omega) (by omega))
      unfold requestAux
      rw [he, ht]
      have hidx : a + 1 + n = a + (n + 1) := by omega
      simp [List.range'_succ, hidx]

/-- C5: `_request` makes at most `max_retries + 1` attempts; when every
attempt fails transiently it sleeps `retry_delay * retry_backoff ^ n +
jitter n` before retry `n` and finally propagates the typed error of the
most recent attempt; a first-attempt response with any status other than
429 is returned immediately with no retry and no sleep. -/
theorem request_retry_policy (maxRetries : ℕ) (rd rb : ℚ)
    (outcomes : ℕ → AttemptOutcome) (jitter : ℕ → ℚ) :
    (requestWithRetry maxRetries rd rb outcomes jitter).attempts ≤
      maxRetries + 1 ∧
    ((∀ k, k ≤ maxRetries → ∃ e, attemptResult (outcomes k) = .error e) →
      requestWithRetry maxRetries rd rb outcomes jitter =
        ⟨attemptResult (outcomes maxRetries), maxRetries + 1,
          (List.range maxRetries).map (fun n => rd * rb ^ n + jitter n)⟩) ∧
    (∀ status : ℕ, status ≠ 429 → outcomes 0 = .resp status →
      requestWithRetry maxRetries rd rb outcomes jitter = ⟨.ok status, 1, []⟩) := by
  refine ⟨?_, ?_, ?_⟩
  · have := requestAux_attempts_le rd rb outcomes jitter maxRetries 0
    simpa [requestWithRetry] using this
  · intro h
    have := requestAux_all_errors rd rb outcomes jitter maxRetries 0
      (fun k hk1 hk2 => h k (by omega))
    simpa [requestWithRetry, List.range_eq_range'] using this
  · intro status hne h0
    have hok : attemptResult (outcomes 0) = .ok status := by
      rw [h0]
      simp [attemptResult, hne]
    cases maxRetries with
    | zero =>
        unfold requestWithRetry requestAux
        rw [hok]
    | succ n =>
        unfold requestWithRetry requestAux
        rw [hok]

theorem request_retry_policy_witness :
    requestWithRetry 3 1 2 (fun _ => .resp 200) (fun _ => 0) =
      ⟨.ok 200, 1, []⟩ :=
  (request_retry_policy 3 1 2 (fun _ => .resp 200) (fun _ => 0)).2.2 200
    (by norm_num) rfl


/-! ## Spread selection (strategy/spread_selector.py) -/

lemma selStep_of_stopped (m : Market) (me : ℚ) (st : SelState) (e : Edge)
    (h : st.stopped = true) : selStep m me st e = st := by
  simp only [selStep]
  rw [if_pos h]

lemma foldl_selStep_stopped (m : Market) (me : ℚ) (l : List Edge) :
    ∀ st : SelState, st.stopped = true → l.foldl (selStep m me) st = st := by
  induction l with
  | nil => intro st _; rfl
  | cons e rest ih =>
      intro st h
      rw [List.foldl_cons, selStep_of_stopped m me st e h]
      exact ih st h

lemma selStep_unstopped (m : Market) (me : ℚ) (sel : List Bucket) (cost : ℚ)
    (e : Edge) :
    selStep m me ⟨sel, cost, false⟩ e =
      if e.edge < me then ⟨sel, cost, false⟩
      else
        match tickerToBucket m.buckets e.bucket_ticker with
        | none => ⟨sel, cost, false⟩
        | some b =>
            if MAX_BUCKET_PRICE < bucketPrice b then ⟨sel, cost, false⟩
            else if MAX_TOTAL_COST < cost + bucketPrice b then ⟨sel, cost, false⟩
            else if MAX_BUCKETS ≤ sel.length then ⟨sel, cost, true⟩
            else ⟨sel ++ [b], cost + bucketPrice b, false⟩ := rfl

lemma selStep_bounds (m : Market) (me : ℚ) (st : SelState) (e : Edge)
    (hc : st.totalCost ≤ 95) (hl : st.selected.length ≤ 2) :
    (selStep m me st e).totalCost ≤ 95 ∧
    (selStep m me st e).selected.length ≤ 2 := by
  obtain ⟨sel, cost, stopped⟩ := st
  cases stopped with
  | true =>
      rw [selStep_of_stopped m me _ e rfl]
      exact ⟨hc, hl⟩
  | false =>
      rw [selStep_unstopped]
      by_cases hedge : e.edge < me
      · rw [if_pos hedge]; exact ⟨hc, hl⟩
      rw [if_neg hedge]
      cases hb : tickerToBucket m.buckets e.bucket_ticker with
      | none => exact ⟨hc, hl⟩
      | some b =>
          simp only
          by_cases hprice : MAX_BUCKET_PRICE < bucketPrice b
          · rw [if_pos hprice]; exact ⟨hc, hl⟩
          rw [if_neg hprice]
          by_cases hcost : MAX_TOTAL_COST < cost + bucketPrice b
          · rw [if_pos hcost]; exact ⟨hc, hl⟩
          rw [if_neg hcost]
          by_cases hcount : MAX_BUCKETS ≤ sel.length
          · rw [if_pos hcount]; exact ⟨hc, hl⟩
          rw [if_neg hcount]
          refine ⟨?_, ?_⟩
          · have h95 : cost + bucketPrice b ≤ 95 := by
              simpa [MAX_TOTAL_COST] using not_lt.mp hcost
            exact h95
          · have hlt : sel.length < 2 := by
              simpa [MAX_BUCKETS] using not_le.mp hcount
            simp only [List.length_append, List.length_cons, List.length_nil]
            omega

lemma foldl_selStep_bounds (m : Market) (me : ℚ) (l : List Edge) :
    ∀ st : SelState, st.totalCost ≤ 95 → st.selected.length ≤ 2 →
      (l.foldl (selStep m me) st).totalCost ≤ 95 ∧
      (l.foldl (selStep m me) st).selected.length ≤ 2 := by
  induction l with
  | nil => intro st hc hl; exact ⟨hc, hl⟩
  | cons e rest ih =>
      intro st hc hl
      obtain ⟨hc2, hl2⟩ := selStep_bounds m me st e hc hl
      simpa [List.foldl_cons] using ih _ hc2 hl2

/-- C3: whenever edge-based spread selection returns a `SpreadSelection`, its
aggregate cost is at most the configured ceiling `MAX_TOTAL_COST = 95`,
hence strictly below 100, and its bucket count never exceeds the configured
maximum `MAX_BUCKETS = 2`. Holds for every market, forecast, minimum-edge
threshold and normal-CDF instantiation. -/
theorem select_spread_cost_and_count_bounds (cdf : ℚ → ℚ → ℚ → ℚ)
    (market : Market) (forecast : Forecast) (minEdge : ℚ)
    (spread : SpreadSelection) (edges : List Edge)
    (h : selectSpreadWithEdge cdf market forecast minEdge =
      (some spread, edges)) :
    spread.total_cost ≤ MAX_TOTAL_COST ∧ spread.total_cost < 100 ∧
    spread.buckets.length ≤ MAX_BUCKETS := by
  have hb := foldl_selStep_bounds market minEdge
    (calculateBucketEdges cdf market forecast) ⟨[], 0, false⟩
    (by norm_num) (by simp)
  simp only [selectSpreadWithEdge] at h
  split_ifs at h with hempty hvalid
  · exact absurd h (by simp)
  · simp only [Prod.mk.injEq, Option.some_inj] at h
    obtain ⟨hsp, hed⟩ := h
    simp only [SpreadSelection.is_valid, Bool.and_eq_true, decide_eq_true_eq]
      at hvalid
    subst hsp
    refine ⟨?_, ?_, hb.2⟩
    · simpa [MAX_TOTAL_COST] using le_of_lt hvalid.1
    · exact lt_trans hvalid.1 (by norm_num)
  · exact absurd h (by simp)

lemma selectSkipGo_cons (m : Market) (me : ℚ) (e : Edge) (rest : List Edge)
    (sel : List Bucket) (cost : ℚ) :
    selectSkipGo m me (e :: rest) sel cost =
      if e.edge < me then selectSkipGo m me rest sel cost
      else
        match tickerToBucket m.buckets e.bucket_ticker with
        | none => selectSkipGo m me rest sel cost
        | some b =>
            if MAX_BUCKET_PRICE < bucketPrice b then
              selectSkipGo m me rest sel cost
            else if MAX_TOTAL_COST < cost + bucketPrice b then
              selectSkipGo m me rest sel cost
            else if MAX_BUCKETS ≤ sel.length then (sel, cost)
            else selectSkipGo m me rest (sel ++ [b]) (cost + bucketPrice b) := rfl

lemma foldl_selStep_eq_skipGo (m : Market) (me : ℚ) :
    ∀ (l : List Edge) (sel : List Bucket) (cost : ℚ),
      (l.foldl (selStep m me) ⟨sel, cost, false⟩).selected =
        (selectSkipGo m me l sel cost).1 ∧
      (l.foldl (selStep m me) ⟨sel, cost, false⟩).totalCost =
        (selectSkipGo m me l sel cost).2 := by
  intro l
  induction l with
  | nil => intro sel cost; exact ⟨rfl, rfl⟩
  | cons e rest ih =>
      intro sel cost
      rw [List.foldl_cons, selStep_unstopped, selectSkipGo_cons]
      by_cases hedge : e.edge < me
      · rw [if_pos hedge, if_pos hedge]
        exact ih sel cost
      rw [if_neg hedge, if_neg hedge]
      cases hb : tickerToBucket m.buckets e.bucket_ticker with
      | none => exact ih sel cost
      | some b =>
          simp only
          by_cases hprice : MAX_BUCKET_PRICE < bucketPrice b
          · rw [if_pos hprice, if_pos hprice]
            exact ih sel cost
          rw [if_neg hprice, if_neg hprice]
          by_cases hcost : MAX_TOTAL_COST < cost + bucketPrice b
          · rw [if_pos hcost, if_pos hcost]
            exact ih sel cost
          rw [if_neg hcost, if_neg hcost]
          by_cases hcount : MAX_BUCKETS ≤ sel.length
          · rw [if_pos hcount, if_pos hcount,
              foldl_selStep_stopped m me rest ⟨sel, cost, true⟩ rfl]
            exact ⟨rfl, rfl⟩
          · rw [if_neg hcount, if_neg hcount]
            exact ih (sel ++ [b]) (cost + bucketPrice b)

/-- C2 (amended): the edge-based selector ranks buckets by descending edge
and greedily accepts those meeting the edge, price-ceiling and cost-ceiling
constraints, but a bucket violating one of those constraints is skipped
while the scan continues with later-ranked buckets; only reaching the
bucket-count limit terminates the scan early. The embedded loop is
extensionally equal to that skip-semantics description, for every input. -/
theorem select_spread_skip_semantics (cdf : ℚ → ℚ → ℚ → ℚ) (market : Market)
    (forecast : Forecast) (minEdge : ℚ) :
    selectSpreadWithEdge cdf market forecast minEdge =
      selectSpreadSkipViolation cdf market forecast minEdge := by
  obtain ⟨hsel, hcost⟩ := foldl_selStep_eq_skipGo market minEdge
    (calculateBucketEdges cdf market forecast) [] 0
  simp only [selectSpreadWithEdge, selectSpreadSkipViolation]
  rw [hsel, hcost]

/-! ## The demonstration selector run

`demo_selector_window` shows the run is determined by the CDF value at the
single evaluated point `x = 16` (`z = 1/2`): for EVERY `cdf` whose value
there lies in `[137/200, 7/10]` — an interval containing the true
`Φ(1/2) = 0.6914624...` with margin ≥ 1/200 on each side — the code skips
the top-ranked, price-violating bucket A and selects the later-ranked
bucket B at cost 25, while the claimed stop-at-first-violation scan
selects nothing. Hand-tracing the source with the real `_normal_cdf`
(probabilities 0.691462 / 0.308538, edges +0.071462 / +0.058538, sum
exactly 1 so no renormalization) follows the same branch path and returns
the selection `[B]` with cost 25. -/

lemma selectSpreadWithEdge_snd (cdf : ℚ → ℚ → ℚ → ℚ) (m : Market)
    (f : Forecast) (me : ℚ) :
    (selectSpreadWithEdge cdf m f me).2 = calculateBucketEdges cdf m f := by
  simp only [selectSpreadWithEdge]
  split_ifs <;> rfl

lemma demoDist_window (cdf : ℚ → ℚ → ℚ → ℚ)
    (h1 : 137/200 ≤ cdf 16 15 2) (h2 : cdf 16 15 2 ≤ 7/10) :
    mkProbDist (fromNormal cdf 15 2 (bucketRanges demoMarket.buckets)) =
      [(BKey.lowTail 16, cdf 16 15 2), (BKey.highTail 16, 1 - cdf 16 15 2)] := by
  have hm1 : max (1/1000 : ℚ) (cdf 16 15 2) = cdf 16 15 2 :=
    max_eq_right (by linarith)
  have hm2 : max (1/1000 : ℚ) (1 - cdf 16 15 2) = 1 - cdf 16 15 2 :=
    max_eq_right (by linarith)
  simp only [demoMarket, demoBucketA, demoBucketB, bucketRanges, fromNormal,
    fromNormalStep, List.foldl, dictInsert, List.any_nil, List.any_cons,
    Int.cast_ofNat, hm1, hm2]
  simp [mkProbDist]

lemma demoEdges_window (cdf : ℚ → ℚ → ℚ → ℚ)
    (h1 : 137/200 ≤ cdf 16 15 2) (h2 : cdf 16 15 2 ≤ 7/10) :
    calculateBucketEdges cdf demoMarket demoForecast =
      [⟨"A", .lowTail 16, cdf 16 15 2, 62/100, cdf 16 15 2 - 62/100,
          (100 - 62) * cdf 16 15 2 - 62 * (1 - cdf 16 15 2), 62⟩,
       ⟨"B", .highTail 16, 1 - cdf 16 15 2, 25/100, (1 - cdf 16 15 2) - 25/100,
          (100 - 25) * (1 - cdf 16 15 2) - 25 * (1 - (1 - cdf 16 15 2)), 25⟩] := by
  have hsort : ((1 - cdf 16 15 2) - 25/100) ≤ (cdf 16 15 2 - 62/100) := by
    linarith
  simp only [calculateBucketEdges, demoForecast]
  rw [demoDist_window cdf h1 h2]
  simp [demoMarket, demoBucketA, demoBucketB, bucketKey, distGet, List.find?,
    bucketPrice, sortEdgesDesc, insertEdgeDesc, List.foldr, List.map, hsort]

lemma demo_selector_window (cdf : ℚ → ℚ → ℚ → ℚ)
    (h1 : 137/200 ≤ cdf 16 15 2) (h2 : cdf 16 15 2 ≤ 7/10) :
    (selectSpreadWithEdge cdf demoMarket demoForecast MIN_EDGE).1 =
      some ⟨[demoBucketB], 25⟩ ∧
    (selectSpreadStopAtViolation cdf demoMarket demoForecast MIN_EDGE).1 =
      none ∧
    (calculateBucketEdges cdf demoMarket demoForecast).map
      (fun e => e.bucket_ticker) = ["A", "B"] := by
  have hA : ¬ (cdf 16 15 2 - 62/100 < MIN_EDGE) := by
    rw [MIN_EDGE]; push_neg; linarith
  have hB : ¬ ((1 - cdf 16 15 2) - 25/100 < MIN_EDGE) := by
    rw [MIN_EDGE]; push_neg; linarith
  refine ⟨?_, ?_, ?_⟩
  · simp only [selectSpreadWithEdge]
    rw [demoEdges_window cdf h1 h2]
    simp [List.foldl, selStep, tickerToBucket, bucketPrice, demoMarket,
      demoBucketA, demoBucketB, MAX_BUCKET_PRICE, MAX_TOTAL_COST,
      MAX_BUCKETS, SpreadSelection.is_valid, List.find?, hA, hB]
    norm_num
  · simp only [selectSpreadStopAtViolation]
    rw [demoEdges_window cdf h1 h2]
    simp [selectStopGo, tickerToBucket, bucketPrice, demoMarket,
      demoBucketA, demoBucketB, MAX_BUCKET_PRICE, List.find?, hA]
    norm_num
  · rw [demoEdges_window cdf h1 h2]
    simp

lemma demoNormalCdf_at_half : demoNormalCdf 16 15 2 = 1383/2000 := by
  norm_num [demoNormalCdf]

lemma demo_code_eval :
    selectSpreadWithEdge demoNormalCdf demoMarket demoForecast MIN_EDGE =
      (some ⟨[demoBucketB], 25⟩, demoEdges) := by
  have hw := (demo_selector_window demoNormalCdf
    (by rw [demoNormalCdf_at_half]; norm_num)
    (by rw [demoNormalCdf_at_half]; norm_num)).1
  exact Prod.ext hw
    (selectSpreadWithEdge_snd demoNormalCdf demoMarket demoForecast MIN_EDGE)

/-- C2 counterexample: on the demonstration market the edge ranking is
bucket A before bucket B, both with edge above the minimum threshold, and A
violates the price ceiling (its price 62 exceeds 60). The claimed
stop-at-first-violation scan terminates at A and selects nothing, but the
code skips A, continues, and returns a selection containing the
later-ranked bucket B at cost 25 — so the claim that the scan stops as
soon as any constraint would be violated is false at this input. By
`demo_selector_window` this outcome holds for every CDF whose value at the
single evaluated point `z = 1/2` lies in `[137/200, 7/10]`, an interval
containing the true `Φ(1/2) = 0.6914624...`; the source with its real
`_normal_cdf` therefore takes the same branch path and returns the same
selection, as the hand trace (edges +0.0715 and +0.0585) confirms. -/
theorem select_spread_stop_claim_cex :
    (selectSpreadWithEdge demoNormalCdf demoMarket demoForecast MIN_EDGE).1 =
      some ⟨[demoBucketB], 25⟩ ∧
    (selectSpreadStopAtViolation demoNormalCdf demoMarket demoForecast
        MIN_EDGE).1 = none ∧
    demoEdges.map (fun e => e.bucket_ticker) = ["A", "B"] ∧
    MAX_BUCKET_PRICE < bucketPrice demoBucketA := by
  obtain ⟨hc, hstop, hrank⟩ := demo_selector_window demoNormalCdf
    (by rw [demoNormalCdf_at_half]; norm_num)
    (by rw [demoNormalCdf_at_half]; norm_num)
  exact ⟨hc, hstop, hrank,
    by norm_num [MAX_BUCKET_PRICE, bucketPrice, demoBucketA]⟩

theorem select_spread_cost_and_count_bounds_witness :
    (⟨[demoBucketB], 25⟩ : SpreadSelection).total_cost ≤ MAX_TOTAL_COST ∧
    (⟨[demoBucketB], 25⟩ : SpreadSelection).total_cost < 100 ∧
    (⟨[demoBucketB], 25⟩ : SpreadSelection).buckets.length ≤ MAX_BUCKETS :=
  select_spread_cost_and_count_bounds demoNormalCdf demoMarket demoForecast
    MIN_EDGE ⟨[demoBucketB], 25⟩ demoEdges demo_code_eval

end KWB
